import Mathlib

/-!
# Verification of the SuperflexPy `Node` class

This file is a shallow embedding, in Lean 4, of the `Node` class implemented
in `superflexpy/framework/node.py`, together with theorems settling the
specified properties of that class.

Modelling conventions:

* Numeric flux values are modelled as rationals (`ℚ`).  A numpy flux array is
  abstracted to a single rational per output position (one timestep), since
  the combination logic of `Node.get_output` acts uniformly on the time axis
  (scalar multiplication and elementwise addition of arrays).
* A Python run that raises an exception inside `get_output` (IndexError from
  `loc_out[out_count]` or `output[j]`, TypeError from `len` of a non-sequence
  weight, NameError from an undefined `output` when the unit list is empty)
  is modelled as `none`; a normal return is `some`.
* The `weights` entries can be Python floats, other scalars (ints), or lists
  containing `None` entries; this is modelled by the inductive type `Weight`.
  The branch test `isinstance(self._weights[0], float)` becomes `isFloat`.
-/

namespace SuperflexPy

/-- A weight entry of `Node._weights`: a Python float, a non-float scalar
(an int), or a per-flux list whose entries are `None` (`Option.none`) or a
scalar. -/
inductive Weight where
  | scalar (q : ℚ)
  | intScalar (z : ℤ)
  | mask (l : List (Option ℚ))
deriving DecidableEq

/-- `isinstance(w, float)` for a weight entry. -/
def isFloat : Weight → Bool
  | .scalar _ => true
  | _ => false

/-- Viewing a weight entry as a number, as the uniform branch's `o * w` does:
a Python float or int multiplies a flux array; a list does not (out of the
numeric model). -/
def asScalar : Weight → Option ℚ
  | .scalar q => some q
  | .intScalar z => some (z : ℚ)
  | .mask _ => none

/-- Viewing a weight entry as a sequence, as the mask branch's `len(w)` /
`w[j]` do: only a list weight succeeds; `len` of a float or int raises
TypeError. -/
def asMask : Weight → Option (List (Option ℚ))
  | .mask l => some l
  | _ => none

/-- The uniform branch's accumulation step
`for j in range(len(output)): output[j] += loc_out[j] * w`:
fails (IndexError) when `loc_out` is shorter than `output`; extra entries of
`loc_out` are silently ignored. -/
def addScaled (output locOut : List ℚ) (w : ℚ) : Option (List ℚ) :=
  if output.length ≤ locOut.length then
    some (List.zipWith (fun o l => o + l * w) output locOut)
  else none

/-- The uniform branch's iterations with `i > 0`, threading the accumulated
`output`. Each pair is `(loc_out, w)` for one unit. -/
def uniformLoop : List (List ℚ × Weight) → List ℚ → Option (List ℚ)
  | [], output => some output
  | (locOut, w) :: rest, output => do
      let q ← asScalar w
      let output' ← addScaled output locOut q
      uniformLoop rest output'

/-- The whole uniform-scalar branch of `Node.get_output`
(lines 113-121 of node.py): the first unit initializes
`output = [o * w for o in loc_out]`, the remaining units accumulate.
With no units at all, `output` is never bound (NameError → `none`). -/
def uniformBranch : List (List ℚ × Weight) → Option (List ℚ)
  | [] => none
  | (locOut, w) :: rest => do
      let q ← asScalar w
      uniformLoop rest (locOut.map (fun o => o * q))

/-- The mask branch's `i == 0` iteration: walk the first unit's weight list,
appending `0` at `None` entries and `loc_out[out_count] * w[j]` otherwise,
advancing `out_count` only at non-`None` entries. `loc_out[out_count]` out of
range raises IndexError (`none`). -/
def maskInit : List (Option ℚ) → List ℚ → Option (List ℚ)
  | [], _ => some []
  | none :: ws, locOut => (maskInit ws locOut).map (fun r => 0 :: r)
  | some q :: ws, locOut =>
      match locOut with
      | [] => none
      | o :: os => (maskInit ws os).map (fun r => o * q :: r)

/-- The mask branch's `i > 0` iterations: walk the unit's weight list,
skipping `None` entries (`continue`, which touches neither `output[j]` nor
`out_count`), and performing `output[j] += loc_out[out_count] * w[j]`
otherwise. Accessing `output[j]` or `loc_out[out_count]` out of range raises
IndexError (`none`). -/
def maskAccum : List (Option ℚ) → List ℚ → List ℚ → Option (List ℚ)
  | [], output, _ => some output
  | none :: ws, [], locOut => maskAccum ws [] locOut
  | none :: ws, o :: os, locOut => (maskAccum ws os locOut).map (fun r => o :: r)
  | some _ :: _, [], _ => none
  | some q :: ws, o :: os, locOut =>
      match locOut with
      | [] => none
      | l :: ls => (maskAccum ws os ls).map (fun r => (o + l * q) :: r)

/-- The mask branch's iterations with `i > 0`, threading `output`. -/
def maskLoop : List (List ℚ × Weight) → List ℚ → Option (List ℚ)
  | [], output => some output
  | (locOut, w) :: rest, output => do
      let m ← asMask w
      let output' ← maskAccum m output locOut
      maskLoop rest output'

/-- The whole per-flux-mask branch of `Node.get_output`
(lines 122-141 of node.py). -/
def maskBranch : List (List ℚ × Weight) → Option (List ℚ)
  | [] => none
  | (locOut, w) :: rest => do
      let m ← asMask w
      let init ← maskInit m locOut
      maskLoop rest init

/-- A Unit as seen by `Node.get_output`: only its id and the output flux
sequence returned by its own `get_output(solve)` matter here. -/
structure OutUnit where
  id : String
  outFluxes : List ℚ
deriving DecidableEq

/-- A Node as seen by `get_output`: the owned units (`self._content`) and the
weights (`self._weights`). -/
structure NodeO where
  content : List OutUnit
  weights : List Weight
deriving DecidableEq

/-- `Node._internal_routing`: no routing (identity). -/
def internalRouting (flux : List ℚ) : List ℚ := flux

/-- `Node.external_routing`: no routing (identity). -/
def externalRouting (flux : List ℚ) : List ℚ := flux

/-- The branch selection of `Node.get_output`:
`isinstance(self._weights[0], float)`. With an empty weight list,
`self._weights[0]` raises IndexError (`none`). `some true` selects the
uniform-scalar branch, `some false` the per-flux-mask branch. -/
def selectsUniform : List Weight → Option Bool
  | [] => none
  | w :: _ => some (isFloat w)

/-- `Node.get_output(solve)` (node.py lines 92-143): each unit is solved
(here, its `outFluxes` are read off), the per-unit outputs are combined with
the weights along the branch selected by the type of the first weight entry,
and the result passes through `_internal_routing`. -/
def NodeO.getOutput (n : NodeO) : Option (List ℚ) :=
  let pairs := (n.content.map OutUnit.outFluxes).zip n.weights
  match selectsUniform n.weights with
  | none => none
  | some true => (uniformBranch pairs).map internalRouting
  | some false => (maskBranch pairs).map internalRouting

/-! ## Helper lemmas for the uniform-scalar branch -/

lemma getD_map_mul : ∀ (l : List ℚ) (q : ℚ) (k : ℕ), k < l.length →
    (l.map (fun o => o * q)).getD k 0 = l.getD k 0 * q
  | _ :: _, _, 0, _ => rfl
  | _ :: l, q, k + 1, h => getD_map_mul l q k (Nat.succ_lt_succ_iff.mp h)

lemma getD_zipWith_lt (f : ℚ → ℚ → ℚ) : ∀ (a b : List ℚ) (k : ℕ),
    k < a.length → k < b.length →
    (List.zipWith f a b).getD k 0 = f (a.getD k 0) (b.getD k 0)
  | _ :: _, _ :: _, 0, _, _ => rfl
  | _ :: as, _ :: bs, k + 1, h1, h2 =>
      getD_zipWith_lt f as bs k (Nat.succ_lt_succ_iff.mp h1) (Nat.succ_lt_succ_iff.mp h2)

lemma uniformLoop_spec : ∀ (ps : List (ℚ × List ℚ)) (acc : List ℚ),
    (∀ p ∈ ps, acc.length ≤ p.2.length) →
    ∃ r, uniformLoop (ps.map (fun p => (p.2, Weight.scalar p.1))) acc = some r ∧
      r.length = acc.length ∧
      ∀ k, k < acc.length →
        r.getD k 0 = acc.getD k 0 + (ps.map (fun p => p.1 * p.2.getD k 0)).sum := by
  intro ps
  induction ps with
  | nil =>
      intro acc _
      exact ⟨acc, rfl, rfl, by simp⟩
  | cons p ps ih =>
      intro acc hlen
      obtain ⟨q, lo⟩ := p
      have hacc : acc.length ≤ lo.length := hlen (q, lo) (List.mem_cons_self _ _)
      have hstep : addScaled acc lo q =
          some (List.zipWith (fun o l => o + l * q) acc lo) := by
        simp [addScaled, hacc]
      set acc' := List.zipWith (fun o l => o + l * q) acc lo with hacc'
      have hlen' : acc'.length = acc.length := by
        simp [hacc', List.length_zipWith]
        omega
      obtain ⟨r, hr, hrlen, hrval⟩ := ih acc' (by
        intro p hp
        rw [hlen']
        exact hlen p (List.mem_cons_of_mem _ hp))
      refine ⟨r, ?_, by rw [hrlen, hlen'], ?_⟩
      · simp [uniformLoop, asScalar, hstep, hr]
      · intro k hk
        have h1 := hrval k (by rw [hlen']; exact hk)
        have h2 := getD_zipWith_lt (fun o l => o + l * q) acc lo k hk
          (Nat.lt_of_lt_of_le hk hacc)
        rw [h1, hacc', h2]
        simp only [List.map_cons, List.sum_cons]
        ring

lemma zip_map_scalar : ∀ (qs : List ℚ) (os : List (List ℚ)),
    os.zip (qs.map Weight.scalar) =
      (qs.zip os).map (fun p => (p.2, Weight.scalar p.1))
  | [], os => by cases os <;> rfl
  | _ :: _, [] => rfl
  | q :: qs, o :: os => by
      simp only [List.map_cons, List.zip_cons_cons, List.map]
      exact congrArg _ (zip_map_scalar qs os)

/-- **C1**: For every Node whose weights are uniform scalars `w_i` and whose
units produce output flux sequences `o_i` of equal length, `get_output()`
returns, at every output position `k`, the weighted sum over all units:
`get_output()[k] = Σ_i w_i * o_i[k]`, with accumulation starting from the
first unit's scaled output; in particular, for two units producing `[2.0]`
and `[3.0]` with weights `[0.25, 0.75]`, `get_output()` returns `[2.75]`. -/
theorem c1_uniform_scalar_weighted_sum :
    (∀ (n : NodeO) (qs : List ℚ) (L : ℕ),
      n.weights = qs.map Weight.scalar →
      n.content.length = qs.length →
      n.content ≠ [] →
      (∀ u ∈ n.content, u.outFluxes.length = L) →
      ∃ out, n.getOutput = some out ∧ out.length = L ∧
        ∀ k, k < L →
          out.getD k 0 =
            ((qs.zip (n.content.map OutUnit.outFluxes)).map
              (fun p => p.1 * p.2.getD k 0)).sum) ∧
    NodeO.getOutput
      { content := [⟨"A", [2]⟩, ⟨"B", [3]⟩],
        weights := [.scalar 0.25, .scalar 0.75] } = some [2.75] := by
  constructor
  · rintro ⟨c, w⟩ qs L hw hlen hne hL
    dsimp only at hw hlen hne hL ⊢
    cases c with
    | nil => exact absurd rfl hne
    | cons u us =>
      cases qs with
      | nil => simp at hlen
      | cons q qs' =>
        subst hw
        have hu : u.outFluxes.length = L := hL u (List.mem_cons_self _ _)
        have hps : ∀ p ∈ qs'.zip (us.map OutUnit.outFluxes),
            (u.outFluxes.map (fun o => o * q)).length ≤ p.2.length := by
          intro p hp
          have h2 := (List.of_mem_zip hp).2
          obtain ⟨u', hu', he⟩ := List.mem_map.mp h2
          have hL' : u'.outFluxes.length = L := hL u' (List.mem_cons_of_mem _ hu')
          rw [← he]
          simp [hu, hL']
        obtain ⟨r, hr, hrlen, hrval⟩ :=
          uniformLoop_spec (qs'.zip (us.map OutUnit.outFluxes)) _ hps
        refine ⟨r, ?_, ?_, ?_⟩
        · simp [NodeO.getOutput, selectsUniform, isFloat, uniformBranch, asScalar,
            internalRouting, zip_map_scalar, hr]
        · rw [hrlen]
          simp [hu]
        · intro k hk
          have hval := hrval k (by simp [hu]; exact hk)
          rw [hval]
          simp only [List.map_cons, List.zip_cons_cons, List.sum_cons]
          rw [getD_map_mul u.outFluxes q k (hu ▸ hk)]
          ring
  · norm_num [NodeO.getOutput, selectsUniform, isFloat, uniformBranch, uniformLoop,
      asScalar, addScaled, internalRouting]

/-- Witness for C1: the general statement applied to the concrete two-unit
node with outputs `[2.0]`, `[3.0]` and weights `[0.25, 0.75]`. -/
theorem c1_uniform_scalar_weighted_sum_witness :
    ∃ out,
      NodeO.getOutput
        { content := [⟨"A", [2]⟩, ⟨"B", [3]⟩],
          weights := [.scalar 0.25, .scalar 0.75] } = some out ∧
      out.length = 1 ∧
      ∀ k, k < 1 →
        out.getD k 0 =
          (([(0.25 : ℚ), 0.75].zip
              ([(⟨"A", [2]⟩ : OutUnit), ⟨"B", [3]⟩].map OutUnit.outFluxes)).map
            (fun p => p.1 * p.2.getD k 0)).sum :=
  c1_uniform_scalar_weighted_sum.1 _ [0.25, 0.75] 1 rfl rfl
    (by simp)
    (by intro u hu; simp at hu; rcases hu with rfl | rfl <;> rfl)

/-! ## Spec-side description of the mask convention (claim C2)

The following two definitions transcribe the specification's *words* for the
per-flux-mask convention, to be compared with the source embedding
(`maskBranch`): a unit contributes nothing at a `None` position and does not
consume an output value there; at a non-`None` position `j` it contributes
`w[j] *` (its next unused output value, consumed left-to-right); the first
unit initializes each position, later units accumulate on top. -/

/-- Spec-side: the per-position contribution of one unit with weight mask `w`
and output sequence `o`, consuming `o` left-to-right at the non-null
positions of `w`. -/
def specMaskContrib : List (Option ℚ) → List ℚ → List ℚ
  | [], _ => []
  | none :: ws, o => 0 :: specMaskContrib ws o
  | some q :: ws, o => q * o.headD 0 :: specMaskContrib ws o.tail

/-- Spec-side: the combined output under the mask convention — the first
unit's contribution initializes, later units' contributions accumulate
pointwise. -/
def specMaskCombine : List (List (Option ℚ) × List ℚ) → List ℚ
  | [] => []
  | (w, o) :: rest =>
      rest.foldl (fun acc p => List.zipWith (· + ·) acc (specMaskContrib p.1 p.2))
        (specMaskContrib w o)

lemma length_specMaskContrib : ∀ (w : List (Option ℚ)) (o : List ℚ),
    (specMaskContrib w o).length = w.length
  | [], _ => rfl
  | none :: ws, o => by simp [specMaskContrib, length_specMaskContrib ws o]
  | some _ :: ws, o => by simp [specMaskContrib, length_specMaskContrib ws o.tail]

lemma maskInit_eq : ∀ (w : List (Option ℚ)) (o : List ℚ),
    (w.filter Option.isSome).length ≤ o.length →
    maskInit w o = some (specMaskContrib w o) := by
  intro w
  induction w with
  | nil => intro o _; rfl
  | cons c ws ih =>
      intro o h
      cases c with
      | none =>
          have := ih o (by simpa using h)
          simp [maskInit, specMaskContrib, this]
      | some q =>
          cases o with
          | nil => simp at h
          | cons a os =>
              have := ih os (by simpa using h)
              simp [maskInit, specMaskContrib, this, mul_comm]

lemma maskAccum_eq : ∀ (w : List (Option ℚ)) (out o : List ℚ),
    out.length = w.length →
    (w.filter Option.isSome).length ≤ o.length →
    maskAccum w out o = some (List.zipWith (· + ·) out (specMaskContrib w o)) := by
  intro w
  induction w with
  | nil =>
      intro out o hlen _
      rw [List.length_nil, List.length_eq_zero] at hlen
      subst hlen
      rfl
  | cons c ws ih =>
      intro out o hlen hcount
      cases out with
      | nil => simp at hlen
      | cons oo os =>
          cases c with
          | none =>
              have := ih os o (by simpa using hlen) (by simpa using hcount)
              simp [maskAccum, specMaskContrib, this]
          | some q =>
              cases o with
              | nil => simp at hcount
              | cons l ls =>
                  have := ih os ls (by simpa using hlen) (by simpa using hcount)
                  simp [maskAccum, specMaskContrib, this, mul_comm]

lemma maskLoop_spec : ∀ (ps : List (List (Option ℚ) × List ℚ)) (acc : List ℚ),
    (∀ p ∈ ps, p.1.length = acc.length ∧
      (p.1.filter Option.isSome).length ≤ p.2.length) →
    maskLoop (ps.map (fun p => (p.2, Weight.mask p.1))) acc =
      some (ps.foldl (fun a p => List.zipWith (· + ·) a (specMaskContrib p.1 p.2)) acc) := by
  intro ps
  induction ps with
  | nil => intro acc _; rfl
  | cons p ps ih =>
      intro acc h
      obtain ⟨w, o⟩ := p
      obtain ⟨hw, hc⟩ := h (w, o) (List.mem_cons_self _ _)
      have hstep := maskAccum_eq w acc o hw.symm hc
      have hlen' : (List.zipWith (· + ·) acc (specMaskContrib w o)).length = acc.length := by
        simp [List.length_zipWith, length_specMaskContrib, hw]
      have hrest := ih (List.zipWith (· + ·) acc (specMaskContrib w o)) (by
        intro p hp
        rw [hlen']
        exact h p (List.mem_cons_of_mem _ hp))
      simp [maskLoop, asMask, hstep, hrest]

lemma getD_zipWith_add_lt : ∀ (a b : List ℚ) (k : ℕ),
    k < a.length → k < b.length →
    (List.zipWith (· + ·) a b).getD k 0 = a.getD k 0 + b.getD k 0
  | _ :: _, _ :: _, 0, _, _ => rfl
  | _ :: as, _ :: bs, k + 1, h1, h2 =>
      getD_zipWith_add_lt as bs k (Nat.succ_lt_succ_iff.mp h1) (Nat.succ_lt_succ_iff.mp h2)

lemma length_foldl_zipWith : ∀ (ps : List (List (Option ℚ) × List ℚ)) (acc : List ℚ),
    (∀ p ∈ ps, p.1.length = acc.length) →
    (ps.foldl (fun a p => List.zipWith (· + ·) a (specMaskContrib p.1 p.2)) acc).length
      = acc.length := by
  intro ps
  induction ps with
  | nil => intro acc _; rfl
  | cons p ps ih =>
      intro acc h
      have hw : p.1.length = acc.length := h p (List.mem_cons_self _ _)
      have hlen' : (List.zipWith (· + ·) acc (specMaskContrib p.1 p.2)).length
          = acc.length := by
        simp [List.length_zipWith, length_specMaskContrib]
        omega
      rw [List.foldl_cons, ih _ (by
        intro q hq
        rw [hlen']
        exact h q (List.mem_cons_of_mem _ hq)), hlen']

lemma getD_foldl_zipWith : ∀ (ps : List (List (Option ℚ) × List ℚ)) (acc : List ℚ),
    (∀ p ∈ ps, p.1.length = acc.length) →
    ∀ k, k < acc.length →
      ((ps.foldl (fun a p => List.zipWith (· + ·) a (specMaskContrib p.1 p.2)) acc).getD k 0
        = acc.getD k 0 + (ps.map (fun p => (specMaskContrib p.1 p.2).getD k 0)).sum)
      ∧ (ps.foldl (fun a p => List.zipWith (· + ·) a (specMaskContrib p.1 p.2)) acc).length
          = acc.length := by
  intro ps
  induction ps with
  | nil => intro acc _ k hk; simp
  | cons p ps ih =>
      intro acc h k hk
      obtain ⟨w, o⟩ := p
      have hw : w.length = acc.length := (h (w, o) (List.mem_cons_self _ _)).symm ▸ rfl
      have hlen' : (List.zipWith (· + ·) acc (specMaskContrib w o)).length = acc.length := by
        simp [List.length_zipWith, length_specMaskContrib]
        omega
      have hih := ih (List.zipWith (· + ·) acc (specMaskContrib w o)) (by
        intro p hp
        rw [hlen']
        exact h p (List.mem_cons_of_mem _ hp)) k (by rw [hlen']; exact hk)
      constructor
      · rw [List.foldl_cons, hih.1]
        rw [getD_zipWith_add_lt acc (specMaskContrib w o) k hk
          (by rw [length_specMaskContrib, hw]; exact hk)]
        simp only [List.map_cons, List.sum_cons]
        ring
      · rw [List.foldl_cons, hih.2, hlen']

lemma zip_map_mask : ∀ (ms : List (List (Option ℚ))) (os : List (List ℚ)),
    os.zip (ms.map Weight.mask) =
      (ms.zip os).map (fun p => (p.2, Weight.mask p.1))
  | [], os => by cases os <;> rfl
  | _ :: _, [] => rfl
  | m :: ms, o :: os => by
      simp only [List.map_cons, List.zip_cons_cons, List.map]
      exact congrArg _ (zip_map_mask ms os)

lemma getD_specMaskContrib_none : ∀ (w : List (Option ℚ)) (o : List ℚ) (j : ℕ),
    w.getD j none = none → (specMaskContrib w o).getD j 0 = 0 := by
  intro w
  induction w with
  | nil => intro o j _; simp [specMaskContrib]
  | cons c ws ih =>
      intro o j h
      cases j with
      | zero =>
          cases c with
          | none => rfl
          | some q => simp [List.getD] at h
      | succ j =>
          cases c with
          | none => simpa [specMaskContrib] using ih o j (by simpa using h)
          | some q => simpa [specMaskContrib] using ih o.tail j (by simpa using h)

/-- **C2**: For every Node under the per-flux-mask weight convention,
`get_output()` computes each output position `j` as follows: a unit whose
weight entry at `j` is the null sentinel contributes nothing at `j` and does
not consume one of its own output values; a unit with a non-null weight
`w_i[j]` contributes `w_i[j]` times its next unused output value, consumed
left-to-right at its non-null positions (captured by `specMaskContrib`); the
first unit initializes each position, later units accumulate on top
(captured by `specMaskCombine`); and a position where every unit's mask entry
is null is `0` in the result, not an error. -/
theorem c2_mask_convention :
    ∀ (n : NodeO) (ms : List (List (Option ℚ))) (L : ℕ),
      n.weights = ms.map Weight.mask →
      n.content.length = ms.length →
      n.content ≠ [] →
      (∀ m ∈ ms, m.length = L) →
      (∀ p ∈ ms.zip (n.content.map OutUnit.outFluxes),
        (p.1.filter Option.isSome).length ≤ p.2.length) →
      ∃ out, n.getOutput = some out ∧
        out = specMaskCombine (ms.zip (n.content.map OutUnit.outFluxes)) ∧
        out.length = L ∧
        (∀ j, j < L →
          out.getD j 0 =
            ((ms.zip (n.content.map OutUnit.outFluxes)).map
              (fun p => (specMaskContrib p.1 p.2).getD j 0)).sum) ∧
        (∀ j, j < L → (∀ m ∈ ms, m.getD j none = none) → out.getD j 0 = 0) := by
  rintro ⟨c, w⟩ ms L hw hlen hne hL hcount
  dsimp only at hw hlen hne hL hcount ⊢
  cases c with
  | nil => exact absurd rfl hne
  | cons u us =>
    cases ms with
    | nil => simp at hlen
    | cons m ms' =>
      subst hw
      have hm : m.length = L := hL m (List.mem_cons_self _ _)
      have hzipcons : (m :: ms').zip ((u :: us).map OutUnit.outFluxes) =
          (m, u.outFluxes) :: ms'.zip (us.map OutUnit.outFluxes) := by
        simp [List.zip_cons_cons]
      have hcount0 : (m.filter Option.isSome).length ≤ u.outFluxes.length := by
        have := hcount (m, u.outFluxes)
        rw [hzipcons] at this
        exact this (List.mem_cons_self _ _)
      have hinit := maskInit_eq m u.outFluxes hcount0
      have hacc : (specMaskContrib m u.outFluxes).length = L := by
        rw [length_specMaskContrib, hm]
      have htail : ∀ p ∈ ms'.zip (us.map OutUnit.outFluxes),
          p.1.length = (specMaskContrib m u.outFluxes).length ∧
          (p.1.filter Option.isSome).length ≤ p.2.length := by
        intro p hp
        constructor
        · obtain ⟨h1, _⟩ := List.of_mem_zip hp
          rw [hacc]
          exact hL p.1 (List.mem_cons_of_mem _ h1)
        · have := hcount p
          rw [hzipcons] at this
          exact this (List.mem_cons_of_mem _ hp)
      have hloop := maskLoop_spec (ms'.zip (us.map OutUnit.outFluxes))
        (specMaskContrib m u.outFluxes) htail
      have hfold := getD_foldl_zipWith (ms'.zip (us.map OutUnit.outFluxes))
        (specMaskContrib m u.outFluxes) (fun p hp => (htail p hp).1)
      refine ⟨(ms'.zip (us.map OutUnit.outFluxes)).foldl
          (fun a p => List.zipWith (· + ·) a (specMaskContrib p.1 p.2))
          (specMaskContrib m u.outFluxes), ?_, ?_, ?_, ?_, ?_⟩
      · simp [NodeO.getOutput, selectsUniform, isFloat, maskBranch, asMask,
          internalRouting, zip_map_mask, hinit, hloop]
      · rw [hzipcons]
        rfl
      · rw [length_foldl_zipWith (ms'.zip (us.map OutUnit.outFluxes))
          (specMaskContrib m u.outFluxes) (fun p hp => (htail p hp).1), hacc]
      · intro j hj
        have hj' : j < (specMaskContrib m u.outFluxes).length := by rw [hacc]; exact hj
        rw [(hfold j hj').1, hzipcons]
        simp only [List.map_cons, List.sum_cons]
      · intro j hj hnull
        have hj' : j < (specMaskContrib m u.outFluxes).length := by rw [hacc]; exact hj
        rw [(hfold j hj').1]
        rw [getD_specMaskContrib_none m u.outFluxes j
          (hnull m (List.mem_cons_self _ _))]
        have : ∀ x ∈ (ms'.zip (us.map OutUnit.outFluxes)).map
            (fun p => (specMaskContrib p.1 p.2).getD j 0), x = 0 := by
          intro x hx
          obtain ⟨p, hp, hpx⟩ := List.mem_map.mp hx
          rw [← hpx]
          exact getD_specMaskContrib_none p.1 p.2 j
            (hnull p.1 (List.mem_cons_of_mem _ (List.of_mem_zip hp).1))
        rw [List.sum_eq_zero this]
        ring

/-- Witness for C2: the general statement applied to a concrete node with two
units producing `[2]` and `[3]` and masks `[[1, None], [2, None]]` (position 1
is all-null). -/
theorem c2_mask_convention_witness :
    ∃ out,
      NodeO.getOutput
        { content := [⟨"A", [2]⟩, ⟨"B", [3]⟩],
          weights := [.mask [some 1, none], .mask [some 2, none]] } = some out ∧
      out = specMaskCombine
        (([[some 1, none], [some 2, none]] : List (List (Option ℚ))).zip
          ([(⟨"A", [2]⟩ : OutUnit), ⟨"B", [3]⟩].map OutUnit.outFluxes)) ∧
      out.length = 2 ∧
      (∀ j, j < 2 →
        out.getD j 0 =
          ((([[some 1, none], [some 2, none]] : List (List (Option ℚ))).zip
              ([(⟨"A", [2]⟩ : OutUnit), ⟨"B", [3]⟩].map OutUnit.outFluxes)).map
            (fun p => (specMaskContrib p.1 p.2).getD j 0)).sum) ∧
      (∀ j, j < 2 →
        (∀ m ∈ ([[some 1, none], [some 2, none]] : List (List (Option ℚ))),
          m.getD j none = none) →
        out.getD j 0 = 0) :=
  c2_mask_convention _ [[some 1, none], [some 2, none]] 2 rfl rfl
    (by simp)
    (by intro m hm; simp at hm; rcases hm with rfl | rfl <;> rfl)
    (by intro p hp; simp at hp; rcases hp with rfl | rfl <;> simp)

/-- **C3 counterexample**: for a Node with unit A producing `[2, 3]`, unit B
producing `[5, 7]` and weights `[[1.0, None], [None, 1.0]]`, the code returns
`[2, 5]` — unit B contributes its *first* output value at position 1, because
outputs are consumed left-to-right at the unit's own non-null positions — and
not `[2, 7]` (`[unitA_out[0], unitB_out[1]]`) as the claim states. -/
theorem c3_counterexample :
    NodeO.getOutput
      { content := [⟨"A", [2, 3]⟩, ⟨"B", [5, 7]⟩],
        weights := [.mask [some 1, none], .mask [none, some 1]] } = some [2, 5] ∧
    ¬ (NodeO.getOutput
      { content := [⟨"A", [2, 3]⟩, ⟨"B", [5, 7]⟩],
        weights := [.mask [some 1, none], .mask [none, some 1]] } = some [2, 7]) := by
  have h : NodeO.getOutput
      { content := [⟨"A", [2, 3]⟩, ⟨"B", [5, 7]⟩],
        weights := [.mask [some 1, none], .mask [none, some 1]] } = some [2, 5] := by
    norm_num [NodeO.getOutput, selectsUniform, isFloat, maskBranch, maskLoop,
      maskInit, maskAccum, asMask, internalRouting]
  refine ⟨h, ?_⟩
  rw [h]
  norm_num

/-- **C3 (amended)**: For a Node with two Units, each producing two output
fluxes, and weights `[[1.0, None], [None, 1.0]]` (mask convention),
`get_output()` returns `[unitA_out[0], unitB_out[0]]`: unit A contributes its
first output at position 0 and unit B contributes its *first* (next unused)
output at position 1, since each unit's outputs are consumed left-to-right
only at its own non-null weight positions. -/
theorem c3_amended_first_unused_output :
    ∀ (a0 a1 b0 b1 : ℚ) (idA idB : String),
      NodeO.getOutput
        { content := [⟨idA, [a0, a1]⟩, ⟨idB, [b0, b1]⟩],
          weights := [.mask [some 1, none], .mask [none, some 1]] }
        = some [a0, b0] := by
  intro a0 a1 b0 b1 idA idB
  simp [NodeO.getOutput, selectsUniform, isFloat, maskBranch, maskLoop,
    maskInit, maskAccum, asMask, internalRouting]

/-- **C9**: `get_output` selects the uniform-scalar branch iff the first
weight entry is a float instance (`isinstance(self._weights[0], float)`); a
Node whose first weight entry is any other scalar (e.g. the integer `1`) is
processed under the per-flux-mask branch (where a non-sequence weight then
fails at `len(w)`, modelled as `none`); and the entries after the first are
never inspected when choosing the branch. -/
theorem c9_branch_on_first_weight_float :
    (∀ (w0 : Weight) (rest : List Weight),
      (selectsUniform (w0 :: rest) = some true ↔ ∃ q, w0 = Weight.scalar q) ∧
      (∀ rest' : List Weight, selectsUniform (w0 :: rest) = selectsUniform (w0 :: rest'))) ∧
    (∀ (units : List OutUnit) (z : ℤ) (rest : List Weight),
      NodeO.getOutput { content := units, weights := Weight.intScalar z :: rest } =
        (maskBranch ((units.map OutUnit.outFluxes).zip (Weight.intScalar z :: rest))).map
          internalRouting) ∧
    NodeO.getOutput { content := [⟨"A", [2]⟩], weights := [.intScalar 1] } = none ∧
    NodeO.getOutput { content := [⟨"A", [2]⟩], weights := [.scalar 1] } = some [2] := by
  refine ⟨?_, ?_, ?_, ?_⟩
  · intro w0 rest
    constructor
    · cases w0 <;> simp [selectsUniform, isFloat]
    · intro rest'
      rfl
  · intro units z rest
    rfl
  · rfl
  · norm_num [NodeO.getOutput, selectsUniform, isFloat, uniformBranch, uniformLoop,
      asScalar, addScaled, internalRouting]

/-! ## Construction model: prefix applications during `Node.__init__` (C4)

For the prefixing claims, only *which prefixing calls reach each owned Unit*
matters.  A Unit's `add_prefix_parameters` / `add_prefix_states` capability
(the Unit class is an external collaborator of node.py) is recorded as an
event log of the prefixes applied, in order; `copy`/`deepcopy` duplicate this
per-object data. -/

/-- A Unit as seen by the prefixing logic of `Node.__init__`. -/
structure PrefUnit where
  id : String
  paramPrefixLog : List String
  statePrefixLog : List String
deriving DecidableEq, Inhabited

/-- One call of `Unit.add_prefix_parameters(id)` on this unit. -/
def unitAddPrefixParams (u : PrefUnit) (id : String) : PrefUnit :=
  { u with paramPrefixLog := u.paramPrefixLog ++ [id] }

/-- One call of `Unit.add_prefix_states(id)` on this unit. -/
def unitAddPrefixStates (u : PrefUnit) (id : String) : PrefUnit :=
  { u with statePrefixLog := u.statePrefixLog ++ [id] }

/-- `Node.add_prefix_parameters(id)` (node.py lines 210-222): forwards the
prefix to every unit currently in `self._content`. -/
def nodeAddPrefixParams (content : List PrefUnit) (id : String) : List PrefUnit :=
  content.map (fun u => unitAddPrefixParams u id)

/-- `Node.add_prefix_states(id)` (node.py lines 224-236). -/
def nodeAddPrefixStates (content : List PrefUnit) (id : String) : List PrefUnit :=
  content.map (fun u => unitAddPrefixStates u id)

/-- The `for h in units` loop of `Node.__init__` (node.py lines 64-70): with
`shared_parameters=False` each appended unit is a deep copy and
`self.add_prefix_parameters(id)` is invoked on the *whole* content built so
far; with `shared_parameters=True` a shallow copy is appended and no
parameter prefixing happens. -/
def initContentLoop (id : String) (shared : Bool) :
    List PrefUnit → List PrefUnit → List PrefUnit
  | [], content => content
  | h :: rest, content =>
      if shared then initContentLoop id shared rest (content ++ [h])
      else initContentLoop id shared rest (nodeAddPrefixParams (content ++ [h]) id)

/-- The content-construction part of `Node.__init__`: the loop above,
followed by the unconditional `self.add_prefix_states(id)` (line 76). -/
def initContent (units : List PrefUnit) (id : String) (shared : Bool) : List PrefUnit :=
  nodeAddPrefixStates (initContentLoop id shared units []) id

/-- The shape `initContentLoop` actually produces for the freshly appended
units, with `shared=False`: the unit appended with `rest` units still to come
receives the prefix `rest.length + 1` times. -/
def prefixedTail (id : String) : List PrefUnit → List PrefUnit
  | [] => []
  | h :: rest =>
      { h with paramPrefixLog := h.paramPrefixLog ++ List.replicate (rest.length + 1) id }
        :: prefixedTail id rest

lemma initContentLoop_false_spec : ∀ (rest content : List PrefUnit) (id : String),
    initContentLoop id false rest content =
      content.map (fun u =>
        { u with paramPrefixLog := u.paramPrefixLog ++ List.replicate rest.length id })
      ++ prefixedTail id rest := by
  intro rest
  induction rest with
  | nil =>
      intro content id
      simp [initContentLoop, prefixedTail]
  | cons h rest ih =>
      intro content id
      rw [initContentLoop, if_neg (by simp)]
      rw [ih (nodeAddPrefixParams (content ++ [h]) id) id]
      simp only [nodeAddPrefixParams, List.map_append, List.map_map, List.map_cons,
        List.map_nil, prefixedTail, List.length_cons, List.append_assoc,
        List.singleton_append, List.cons_append, List.nil_append]
      congr 1
      · apply List.map_congr_left
        intro u _
        simp [Function.comp, unitAddPrefixParams, List.replicate_succ, List.append_assoc]
      · simp [unitAddPrefixParams, List.replicate_succ, List.append_assoc]

lemma length_prefixedTail (id : String) : ∀ (l : List PrefUnit),
    (prefixedTail id l).length = l.length
  | [] => rfl
  | _ :: rest => by simp [prefixedTail, length_prefixedTail id rest]

lemma getD_prefixedTail (id : String) : ∀ (l : List PrefUnit) (j : ℕ), j < l.length →
    (prefixedTail id l).getD j default =
      { l.getD j default with
        paramPrefixLog := (l.getD j default).paramPrefixLog
          ++ List.replicate (l.length - j) id }
  | h :: rest, 0, _ => by simp [prefixedTail, List.getD]
  | h :: rest, j + 1, hj => by
      have := getD_prefixedTail id rest j (Nat.succ_lt_succ_iff.mp hj)
      simpa [prefixedTail, List.getD_cons_succ] using this

lemma getD_map_prefUnit (f : PrefUnit → PrefUnit) : ∀ (l : List PrefUnit) (j : ℕ),
    j < l.length → (l.map f).getD j default = f (l.getD j default)
  | _ :: _, 0, _ => rfl
  | _ :: l, j + 1, h => getD_map_prefUnit f l j (Nat.succ_lt_succ_iff.mp h)

/-- **C4 counterexample**: constructing a Node over two units with
`shared_parameters=False` and id `"n"` applies `add_prefix_parameters("n")`
to the first unit *twice* (once per loop iteration, because the Node-level
`add_prefix_parameters` is re-invoked on the whole content after every
append), so the applications are `[["n", "n"], ["n"]]`, not once per unit. -/
theorem c4_counterexample :
    (initContent [⟨"u1", [], []⟩, ⟨"u2", [], []⟩] "n" false).map PrefUnit.paramPrefixLog
      = [["n", "n"], ["n"]] ∧
    ¬ ((initContent [⟨"u1", [], []⟩, ⟨"u2", [], []⟩] "n" false).map PrefUnit.paramPrefixLog
      = [["n"], ["n"]]) := by
  constructor
  · rfl
  · decide

/-- **C4 (amended)**: For every Node constructed with
`shared_parameters=False` over `n` units, the owned Unit stored at position
`j` (0-based) has had `add_prefix_parameters("<id>")` applied exactly
`n - j` times — the Node-level `add_prefix_parameters(id)` is re-invoked
inside the construction loop after each unit is appended, re-prefixing all
units appended so far.  Only the last unit has it applied exactly once. -/
theorem c4_amended_prefix_applied_n_minus_j_times :
    ∀ (units : List PrefUnit) (id : String),
      (initContent units id false).length = units.length ∧
      ∀ j, j < units.length →
        ((initContent units id false).getD j default).paramPrefixLog
          = (units.getD j default).paramPrefixLog
            ++ List.replicate (units.length - j) id := by
  intro units id
  have hloop : initContentLoop id false units [] = prefixedTail id units := by
    rw [initContentLoop_false_spec units [] id]
    simp
  constructor
  · simp [initContent, nodeAddPrefixStates, hloop, length_prefixedTail]
  · intro j hj
    have hj' : j < (prefixedTail id units).length := by
      rw [length_prefixedTail]; exact hj
    rw [initContent, hloop, nodeAddPrefixStates,
      getD_map_prefUnit (fun u => unitAddPrefixStates u id) _ j hj',
      getD_prefixedTail id units j hj]
    rfl

/-- Witness for the amended C4: two units, id `"n"`; the first unit's
parameter-prefix log after construction is `["n", "n"]`
(`= [] ++ List.replicate (2 - 0) "n"`). -/
theorem c4_amended_witness :
    (initContent [⟨"u1", [], []⟩, ⟨"u2", [], []⟩] "n" false).length = 2 ∧
    ((initContent [⟨"u1", [], []⟩, ⟨"u2", [], []⟩] "n" false).getD 0 default).paramPrefixLog
      = [] ++ List.replicate 2 "n" :=
  ⟨(c4_amended_prefix_applied_n_minus_j_times [⟨"u1", [], []⟩, ⟨"u2", [], []⟩] "n").1,
   (c4_amended_prefix_applied_n_minus_j_times [⟨"u1", [], []⟩, ⟨"u2", [], []⟩] "n").2
     0 (by norm_num)⟩

/-! ## Ownership model: shared vs duplicated parameters (C5)

node.py stores `copy(h)` when `shared_parameters=True` and `deepcopy(h)`
otherwise (lines 64-70).  The Unit class is an external collaborator of
node.py; per the spec, with `shared_parameters=True` "each Unit is aliased
(shared ownership) across all Nodes that reference it — parameter mutation
propagates", and with `False` it is "independently duplicated (deep,
ownership-exclusive copy)".  Parameters are therefore modelled as cells in an
explicit store referenced by each unit object, with `copy` sharing the cell
and `deepcopy` snapshotting it into a fresh cell. -/

/-- The store of parameter cells; a cell is a parameter name/value map. -/
structure ParamStore where
  cells : List (List (String × ℚ))
deriving DecidableEq, Inhabited

/-- A Unit as seen by the ownership logic: its parameters live in the store
cell `paramsRef`; its states are per-object values. -/
structure RefUnit where
  id : String
  paramsRef : ℕ
  states : List (String × ℚ)
deriving DecidableEq, Inhabited

/-- Modelled from the spec: `copy(h)` — the `shared_parameters=True` branch —
yields a unit sharing the parameter cell (shared ownership: parameter
mutation propagates), with its own copy of the per-object data. -/
def copyUnit (u : RefUnit) : RefUnit := u

/-- Modelled from the spec: `deepcopy(h)` — the `shared_parameters=False`
branch — duplicates the parameters into a fresh, exclusively owned cell. -/
def deepcopyUnit (u : RefUnit) (s : ParamStore) : RefUnit × ParamStore :=
  ({ u with paramsRef := s.cells.length },
   ⟨s.cells ++ [s.cells.getD u.paramsRef []]⟩)

/-- Replace the cell `ref` points to by `f` of its current value. -/
def updateCell (s : ParamStore) (ref : ℕ)
    (f : List (String × ℚ) → List (String × ℚ)) : ParamStore :=
  ⟨s.cells.set ref (f (s.cells.getD ref []))⟩

/-- Modelled from the spec: `Unit.add_prefix_parameters(id)` makes every
parameter name owned by the unit gain the `"<id>_"` prefix. -/
def unitAddPrefixParamsRef (u : RefUnit) (id : String) (s : ParamStore) : ParamStore :=
  updateCell s u.paramsRef (fun c => c.map (fun p => (id ++ "_" ++ p.1, p.2)))

/-- `Node.add_prefix_parameters(id)` over this model: forwards to every unit
in `self._content`. -/
def nodeAddPrefixParamsRef (content : List RefUnit) (id : String) (s : ParamStore) :
    ParamStore :=
  content.foldl (fun st u => unitAddPrefixParamsRef u id st) s

/-- Modelled from the spec: `Unit.add_prefix_states(id)` (states are
per-object, never shared). -/
def unitAddPrefixStatesRef (u : RefUnit) (id : String) : RefUnit :=
  { u with states := u.states.map (fun p => (id ++ "_" ++ p.1, p.2)) }

/-- The `for h in units` loop of `Node.__init__` (lines 64-70) over the
ownership model, threading the parameter store. -/
def initLoopRef (id : String) (shared : Bool) :
    List RefUnit → List RefUnit → ParamStore → List RefUnit × ParamStore
  | [], content, s => (content, s)
  | h :: rest, content, s =>
      if shared then initLoopRef id shared rest (content ++ [copyUnit h]) s
      else
        let hs := deepcopyUnit h s
        initLoopRef id shared rest (content ++ [hs.1])
          (nodeAddPrefixParamsRef (content ++ [hs.1]) id hs.2)

/-- `Node.__init__`'s content construction over the ownership model: the loop
followed by the unconditional `add_prefix_states(id)` (line 76). -/
def mkNodeContent (units : List RefUnit) (id : String) (shared : Bool) (s : ParamStore) :
    List RefUnit × ParamStore :=
  ((initLoopRef id shared units [] s).1.map (fun u => unitAddPrefixStatesRef u id),
   (initLoopRef id shared units [] s).2)

/-- Modelled from the spec: mutating a parameter value through a Node's Unit
writes through the unit's parameter-cell reference. -/
def setParam (s : ParamStore) (u : RefUnit) (name : String) (v : ℚ) : ParamStore :=
  updateCell s u.paramsRef (fun c => c.map (fun p => if p.1 = name then (p.1, v) else p))

/-- Reading a parameter value through a Node's Unit. -/
def getParam (s : ParamStore) (u : RefUnit) (name : String) : Option ℚ :=
  (s.cells.getD u.paramsRef []).lookup name

/-! Small list lemmas used by the ownership proofs. -/

lemma getD_set_self {α : Type} (d : α) : ∀ (l : List α) (r : ℕ) (c : α),
    r < l.length → (l.set r c).getD r d = c
  | _ :: _, 0, _, _ => rfl
  | _ :: l, r + 1, c, h => getD_set_self d l r c (Nat.succ_lt_succ_iff.mp h)

lemma getD_set_ne {α : Type} (d : α) : ∀ (l : List α) (r r' : ℕ) (c : α),
    r ≠ r' → (l.set r c).getD r' d = l.getD r' d
  | [], _, _, _, _ => rfl
  | _ :: _, 0, 0, _, h => absurd rfl h
  | _ :: _, 0, _ + 1, _, _ => rfl
  | _ :: _, _ + 1, 0, _, _ => rfl
  | _ :: l, r + 1, r' + 1, c, h =>
      getD_set_ne d l r r' c (fun he => h (congrArg Nat.succ he))

lemma getD_append_lt {α : Type} (d : α) : ∀ (l l' : List α) (i : ℕ),
    i < l.length → (l ++ l').getD i d = l.getD i d
  | _ :: _, _, 0, _ => rfl
  | _ :: l, l', i + 1, h => getD_append_lt d l l' i (Nat.succ_lt_succ_iff.mp h)

@[simp] lemma getD_append_length {α : Type} (d : α) : ∀ (l : List α) (c : α),
    (l ++ [c]).getD l.length d = c
  | [], _ => rfl
  | _ :: l, c => getD_append_length d l c

@[simp] lemma set_append_length {α : Type} : ∀ (l : List α) (c x : α),
    (l ++ [c]).set l.length x = l ++ [x]
  | [], _, _ => rfl
  | a :: l, c, x => congrArg (a :: ·) (set_append_length l c x)

lemma lookup_setValue (k : String) (v : ℚ) : ∀ (cell : List (String × ℚ)),
    (cell.lookup k).isSome →
    (cell.map (fun p => if p.1 = k then (p.1, v) else p)).lookup k = some v := by
  intro cell
  induction cell with
  | nil => intro h; simp [List.lookup] at h
  | cons p tl ih =>
      obtain ⟨k', w⟩ := p
      intro h
      by_cases hp : k' = k
      · subst hp
        simp only [List.map_cons, if_true]
        simp [List.lookup]
      · have hkk : (k == k') = false := beq_false_of_ne (fun he => hp he.symm)
        simp only [List.map_cons, if_neg hp]
        simp only [List.lookup, hkk]
        apply ih
        simpa [List.lookup, hkk] using h

lemma mkNodeContent_single_true (u : RefUnit) (id : String) (s : ParamStore) :
    mkNodeContent [u] id true s = ([unitAddPrefixStatesRef u id], s) := rfl

lemma mkNodeContent_single_false (u : RefUnit) (id : String) (s : ParamStore) :
    mkNodeContent [u] id false s =
      ([unitAddPrefixStatesRef { u with paramsRef := s.cells.length } id],
       ⟨s.cells ++ [(s.cells.getD u.paramsRef []).map (fun p => (id ++ "_" ++ p.1, p.2))]⟩) := by
  simp [mkNodeContent, initLoopRef, deepcopyUnit, nodeAddPrefixParamsRef,
    unitAddPrefixParamsRef, updateCell]

/-- **C5**: Constructing two Nodes with `shared_parameters=True` over the
same Unit object makes both stored Units share the caller-supplied Unit's
parameter cell, so a parameter mutation through the first Node's Unit is
read back through the second Node's Unit; with `shared_parameters=False` the
stored Units are exclusive deep duplicates, and the same mutation leaves
every parameter visible through the other Node's Unit unchanged. -/
theorem c5_shared_vs_duplicated_parameters :
    ∀ (u : RefUnit) (s : ParamStore) (k : String) (v : ℚ),
      u.paramsRef < s.cells.length →
      ((s.cells.getD u.paramsRef []).lookup k).isSome →
      (getParam
          (setParam (mkNodeContent [u] "n2" true (mkNodeContent [u] "n1" true s).2).2
            ((mkNodeContent [u] "n1" true s).1.getD 0 default) k v)
          ((mkNodeContent [u] "n2" true (mkNodeContent [u] "n1" true s).2).1.getD 0 default) k
        = some v) ∧
      (∀ q, getParam
          (setParam (mkNodeContent [u] "n2" false (mkNodeContent [u] "n1" false s).2).2
            ((mkNodeContent [u] "n1" false s).1.getD 0 default) k v)
          ((mkNodeContent [u] "n2" false (mkNodeContent [u] "n1" false s).2).1.getD 0 default) q
        = getParam (mkNodeContent [u] "n2" false (mkNodeContent [u] "n1" false s).2).2
            ((mkNodeContent [u] "n2" false (mkNodeContent [u] "n1" false s).2).1.getD 0 default) q) := by
  intro u s k v hr hk
  constructor
  · rw [mkNodeContent_single_true, mkNodeContent_single_true]
    simp only [List.getD_cons_zero, setParam, getParam, updateCell, unitAddPrefixStatesRef]
    rw [getD_set_self _ _ _ _ hr]
    exact lookup_setValue k v _ hk
  · intro q
    rw [mkNodeContent_single_false u "n1" s]
    dsimp only
    rw [mkNodeContent_single_false u "n2"]
    simp only [List.getD_cons_zero, setParam, getParam, updateCell, unitAddPrefixStatesRef]
    rw [getD_set_ne _ _ _ _ _
      (by simp only [List.length_append, List.length_singleton]; omega)]

/-- Witness for C5: a unit referencing the single cell of a one-cell store
holding parameter `x = 3`, mutated to `9`. -/
theorem c5_shared_vs_duplicated_parameters_witness :
    (getParam
        (setParam (mkNodeContent [⟨"h1", 0, [("s1", 5)]⟩] "n2" true
            (mkNodeContent [⟨"h1", 0, [("s1", 5)]⟩] "n1" true ⟨[[("x", 3)]]⟩).2).2
          ((mkNodeContent [⟨"h1", 0, [("s1", 5)]⟩] "n1" true
            ⟨[[("x", 3)]]⟩).1.getD 0 default) "x" 9)
        ((mkNodeContent [⟨"h1", 0, [("s1", 5)]⟩] "n2" true
          (mkNodeContent [⟨"h1", 0, [("s1", 5)]⟩] "n1" true
            ⟨[[("x", 3)]]⟩).2).1.getD 0 default) "x"
      = some 9) ∧
    (∀ q, getParam
        (setParam (mkNodeContent [⟨"h1", 0, [("s1", 5)]⟩] "n2" false
            (mkNodeContent [⟨"h1", 0, [("s1", 5)]⟩] "n1" false ⟨[[("x", 3)]]⟩).2).2
          ((mkNodeContent [⟨"h1", 0, [("s1", 5)]⟩] "n1" false
            ⟨[[("x", 3)]]⟩).1.getD 0 default) "x" 9)
        ((mkNodeContent [⟨"h1", 0, [("s1", 5)]⟩] "n2" false
          (mkNodeContent [⟨"h1", 0, [("s1", 5)]⟩] "n1" false
            ⟨[[("x", 3)]]⟩).2).1.getD 0 default) q
      = getParam (mkNodeContent [⟨"h1", 0, [("s1", 5)]⟩] "n2" false
            (mkNodeContent [⟨"h1", 0, [("s1", 5)]⟩] "n1" false ⟨[[("x", 3)]]⟩).2).2
          ((mkNodeContent [⟨"h1", 0, [("s1", 5)]⟩] "n2" false
            (mkNodeContent [⟨"h1", 0, [("s1", 5)]⟩] "n1" false
              ⟨[[("x", 3)]]⟩).2).1.getD 0 default) q) :=
  c5_shared_vs_duplicated_parameters ⟨"h1", 0, [("s1", 5)]⟩ ⟨[[("x", 3)]]⟩ "x" 9
    (by norm_num) (by simp [List.lookup])

/-! ## Addressing model: `get_internal` / `call_internal` (C6, C7, C10) and
the copy restriction (C8)

A Unit is modelled by its member namespace (attributes and methods, as
`getattr` sees them) plus its own `get_internal`/`call_internal` capability
used when the Node delegates.  Python exceptions become an explicit error
type; `getattr` on a missing name raises `AttributeError`; calling a
non-callable raises `TypeError` (which an `except AttributeError:` clause
does not catch). -/

/-- The Python exceptions relevant to node.py's addressing code. -/
inductive PyErr where
  | attributeError (msg : String)
  | keyError (msg : String)
  | typeError (msg : String)
deriving DecidableEq

/-- A member of a Unit's namespace: a plain attribute value, or a bound
method taking keyword arguments. -/
inductive Member where
  | attr (v : ℚ)
  | meth (f : List (String × ℚ) → Except PyErr ℚ)

/-- A Unit as seen by the addressing logic. -/
structure AUnit where
  id : String
  members : String → Option Member
  internalGet : String → String → Except PyErr Member
  internalCall : String → String → List (String × ℚ) → Except PyErr ℚ

instance : Inhabited AUnit :=
  ⟨⟨"", fun _ => none, fun _ _ => .error (.keyError ""),
    fun _ _ _ => .error (.keyError "")⟩⟩

/-- A Node as seen by the addressing logic. -/
structure ANode where
  id : String
  content : List AUnit

/-- `self._error_message` (node.py lines 61-62):
`'module : superflexPy, Node : {},'.format(id) + ' Error message : '`. -/
def errorMessage (id : String) : String :=
  "module : superflexPy, Node : " ++ id ++ "," ++ " Error message : "

/-- Python's `id.split('_')` on the character list of the id. -/
def splitSep : List Char → List (List Char)
  | [] => [[]]
  | c :: rest =>
      let r := splitSep rest
      if c = '_' then [] :: r
      else
        match r with
        | [] => [[c]]
        | g :: gs => (c :: g) :: gs

/-- The number of segments `id.split('_')` yields. -/
def numSegments (id : String) : ℕ := (splitSep id.toList).length

/-- Modelled from the spec: `_find_content_from_name` (defined in the
`GenericComponent` base class, outside the shown source) selects, via
`_content_pointer`, the index of the owned Unit whose id is the leading
segment of the composite id. -/
def findContentFromName (n : ANode) (id : String) : Option ℕ :=
  n.content.findIdx? (fun u => u.id.toList == (splitSep id.toList).headD [])

/-- `Node._find_attribute_from_name` (node.py lines 256-280): split the id on
`'_'`, resolve the unit index, and report whether the target is a nested
element (exactly three segments) or the Unit itself. -/
def findAttributeFromName (n : ANode) (id : String) : Option (ℕ × Bool) :=
  match findContentFromName n id with
  | none => none
  | some i => some (i, numSegments id == 3)

/-- `Node.get_internal` (node.py lines 145-175): delegate the whole original
id to the selected Unit when the target is a nested element; otherwise
`getattr` the attribute on the Unit, turning a missing name into an
`AttributeError` that carries the Node's error prefix. -/
def ANode.getInternal (n : ANode) (id attr : String) : Except PyErr Member :=
  match findAttributeFromName n id with
  | none => .error (.keyError id)
  | some (i, true) => (n.content.getD i default).internalGet id attr
  | some (i, false) =>
      match (n.content.getD i default).members attr with
      | some m => .ok m
      | none => .error (.attributeError
          (errorMessage n.id ++ "the attribute " ++ attr ++ " does not exist."))

/-- `Node.call_internal` (node.py lines 177-206): delegate as above when the
target is a nested element; otherwise `getattr` the method and call it with
the keyword arguments.  The `try` block encloses the method *call* too, so an
`AttributeError` raised inside the method body is also caught and reported as
"the method ... does not exist"; calling a non-callable member raises
`TypeError`, which the `except AttributeError:` clause does not catch. -/
def ANode.callInternal (n : ANode) (id meth : String) (kwargs : List (String × ℚ)) :
    Except PyErr ℚ :=
  match findAttributeFromName n id with
  | none => .error (.keyError id)
  | some (i, true) => (n.content.getD i default).internalCall id meth kwargs
  | some (i, false) =>
      match (n.content.getD i default).members meth with
      | none => .error (.attributeError
          (errorMessage n.id ++ "the method " ++ meth ++ " does not exist."))
      | some (.attr _) => .error (.typeError "object is not callable")
      | some (.meth f) =>
          match f kwargs with
          | .error (.attributeError _) => .error (.attributeError
              (errorMessage n.id ++ "the method " ++ meth ++ " does not exist."))
          | r => r

/-- `Node.__copy__` (node.py lines 294-296): unconditionally raises. -/
def nodeCopy (n : ANode) : Except PyErr ANode :=
  .error (.attributeError (errorMessage n.id ++ "A Node cannot be copied"))

/-- `Node.__deepcopy__` (node.py lines 298-300): unconditionally raises. -/
def nodeDeepcopy (n : ANode) : Except PyErr ANode :=
  .error (.attributeError (errorMessage n.id ++ "A Node cannot be copied"))

/-- A concrete Unit for instantiating the addressing theorems: it has an
attribute `area`, a method `boom` whose body raises `AttributeError`, and a
method `observe` that returns `kwargs["x"] + 1`. -/
def demoUnit : AUnit where
  id := "u1"
  members := fun s =>
    if s = "area" then some (.attr 7)
    else if s = "boom" then some (.meth (fun _ => .error (.attributeError "inner boom")))
    else if s = "observe" then some (.meth (fun kw => .ok (((kw.lookup "x").getD 0) + 1)))
    else none
  internalGet := fun _ _ => .ok (.attr 42)
  internalCall := fun _ _ _ => .ok 99

/-- A concrete Node owning `demoUnit`. -/
def demoNode : ANode := ⟨"n1", [demoUnit]⟩

/-- **C6**: For every Node, `get_internal(id, attribute)` and
`call_internal(id, method, ...)` delegate the *entire original* id and the
member name to the selected Unit's own `get_internal`/`call_internal` exactly
when splitting the id on `'_'` yields three segments; otherwise they resolve
a direct member of the selected Unit itself, returning the attribute value
(`get_internal`) or invoking the method with the supplied keyword arguments
(`call_internal`). -/
theorem c6_addressing_resolution :
    ∀ (n : ANode) (id : String) (i : ℕ),
      findContentFromName n id = some i →
      (numSegments id = 3 →
        (∀ attr, n.getInternal id attr = (n.content.getD i default).internalGet id attr) ∧
        (∀ meth kwargs, n.callInternal id meth kwargs
          = (n.content.getD i default).internalCall id meth kwargs)) ∧
      (numSegments id ≠ 3 →
        (∀ attr m, (n.content.getD i default).members attr = some m →
          n.getInternal id attr = .ok m) ∧
        (∀ meth kwargs f r, (n.content.getD i default).members meth = some (.meth f) →
          f kwargs = .ok r → n.callInternal id meth kwargs = .ok r)) := by
  intro n id i hfind
  have hfa : findAttributeFromName n id = some (i, numSegments id == 3) := by
    simp [findAttributeFromName, hfind]
  constructor
  · intro h3
    have hb : (numSegments id == 3) = true := by simp [h3]
    rw [hb] at hfa
    exact ⟨fun attr => by simp [ANode.getInternal, hfa],
           fun meth kwargs => by simp [ANode.callInternal, hfa]⟩
  · intro h3
    have hb : (numSegments id == 3) = false := beq_false_of_ne h3
    rw [hb] at hfa
    constructor
    · intro attr m hm
      have hm' := hm
      simp only [List.getD_eq_getElem?_getD] at hm'
      simp [ANode.getInternal, hfa, hm']
    · intro meth kwargs f r hf hr
      have hf' := hf
      simp only [List.getD_eq_getElem?_getD] at hf'
      simp [ANode.callInternal, hfa, hf', hr]

/-- Witness for C6: a three-segment id delegates into the unit; a one-segment
id resolves the unit's own attribute `area`. -/
theorem c6_addressing_resolution_witness :
    demoNode.getInternal "u1_e1_p1" "x" = demoUnit.internalGet "u1_e1_p1" "x" ∧
    demoNode.getInternal "u1" "area" = .ok (.attr 7) :=
  ⟨((c6_addressing_resolution demoNode "u1_e1_p1" 0 rfl).1 (by decide)).1 "x",
   ((c6_addressing_resolution demoNode "u1" 0 rfl).2 (by decide)).1 "area" (.attr 7) rfl⟩

/-- **C7 counterexample**: the lookup error is *not* raised exactly when the
member is missing — the method `boom` exists on the resolved Unit, yet
`call_internal` fails with the "the method ... does not exist" lookup error,
because the method's own `AttributeError` is caught by the same handler. -/
theorem c7_counterexample :
    (demoUnit.members "boom").isSome = true ∧
    demoNode.callInternal "u1" "boom" [] =
      .error (.attributeError
        (errorMessage "n1" ++ "the method " ++ "boom" ++ " does not exist.")) := by
  constructor
  · rfl
  · rfl

/-- **C7 (amended)**: For every Node, whenever the named attribute or method
does not exist on the resolved Unit, `get_internal`/`call_internal` fail with
a lookup error whose message reports both the Node's id and the requested
member name, surfaced to the caller without retry.  (For `call_internal` the
same lookup error is additionally raised when an existing method itself
raises an attribute-lookup error during execution, so "exactly when" does
not hold.) -/
theorem c7_amended_lookup_error_reports_id_and_name :
    ∀ (n : ANode) (id name : String) (kwargs : List (String × ℚ)) (i : ℕ),
      findContentFromName n id = some i →
      numSegments id ≠ 3 →
      (n.content.getD i default).members name = none →
      (n.getInternal id name = .error (.attributeError
          (errorMessage n.id ++ "the attribute " ++ name ++ " does not exist.")) ∧
       n.callInternal id name kwargs = .error (.attributeError
          (errorMessage n.id ++ "the method " ++ name ++ " does not exist.")) ∧
       (∃ a b, errorMessage n.id ++ "the attribute " ++ name ++ " does not exist."
          = a ++ n.id ++ b) ∧
       (∃ c d, errorMessage n.id ++ "the attribute " ++ name ++ " does not exist."
          = c ++ name ++ d) ∧
       (∃ a b, errorMessage n.id ++ "the method " ++ name ++ " does not exist."
          = a ++ n.id ++ b) ∧
       (∃ c d, errorMessage n.id ++ "the method " ++ name ++ " does not exist."
          = c ++ name ++ d)) := by
  intro n id name kwargs i hfind h3 hnone
  have hfa : findAttributeFromName n id = some (i, numSegments id == 3) := by
    simp [findAttributeFromName, hfind]
  rw [beq_false_of_ne h3] at hfa
  have hnone' := hnone
  simp only [List.getD_eq_getElem?_getD] at hnone'
  refine ⟨?_, ?_, ?_, ?_, ?_, ?_⟩
  · simp [ANode.getInternal, hfa, hnone']
  · simp [ANode.callInternal, hfa, hnone']
  · exact ⟨"module : superflexPy, Node : ",
      "," ++ " Error message : " ++ "the attribute " ++ name ++ " does not exist.",
      by simp [errorMessage, String.append_assoc]⟩
  · exact ⟨errorMessage n.id ++ "the attribute ", " does not exist.", rfl⟩
  · exact ⟨"module : superflexPy, Node : ",
      "," ++ " Error message : " ++ "the method " ++ name ++ " does not exist.",
      by simp [errorMessage, String.append_assoc]⟩
  · exact ⟨errorMessage n.id ++ "the method ", " does not exist.", rfl⟩

/-- Witness for the amended C7: member `nope` is absent on `demoUnit`. -/
theorem c7_amended_witness :
    demoNode.getInternal "u1" "nope" = .error (.attributeError
        (errorMessage "n1" ++ "the attribute " ++ "nope" ++ " does not exist.")) ∧
    demoNode.callInternal "u1" "nope" [] = .error (.attributeError
        (errorMessage "n1" ++ "the method " ++ "nope" ++ " does not exist.")) ∧
    (∃ a b, errorMessage "n1" ++ "the attribute " ++ "nope" ++ " does not exist."
        = a ++ "n1" ++ b) ∧
    (∃ c d, errorMessage "n1" ++ "the attribute " ++ "nope" ++ " does not exist."
        = c ++ "nope" ++ d) ∧
    (∃ a b, errorMessage "n1" ++ "the method " ++ "nope" ++ " does not exist."
        = a ++ "n1" ++ b) ∧
    (∃ c d, errorMessage "n1" ++ "the method " ++ "nope" ++ " does not exist."
        = c ++ "nope" ++ d) :=
  c7_amended_lookup_error_reports_id_and_name demoNode "u1" "nope" [] 0 rfl
    (by decide) rfl

/-- **C10**: If `call_internal` resolves an *existing* method on the selected
Unit and that method itself raises an attribute-lookup error during
execution, the Node reports this with the same "the method ... does not
exist" unknown-member error (naming the Node id and the method) instead of
propagating the original error. -/
theorem c10_method_attributeerror_reported_as_missing :
    ∀ (n : ANode) (id meth : String) (kwargs : List (String × ℚ)) (i : ℕ)
      (f : List (String × ℚ) → Except PyErr ℚ) (s : String),
      findContentFromName n id = some i →
      numSegments id ≠ 3 →
      (n.content.getD i default).members meth = some (.meth f) →
      f kwargs = .error (.attributeError s) →
      n.callInternal id meth kwargs = .error (.attributeError
        (errorMessage n.id ++ "the method " ++ meth ++ " does not exist.")) := by
  intro n id meth kwargs i f s hfind h3 hf hr
  have hfa : findAttributeFromName n id = some (i, numSegments id == 3) := by
    simp [findAttributeFromName, hfind]
  rw [beq_false_of_ne h3] at hfa
  have hf' := hf
  simp only [List.getD_eq_getElem?_getD] at hf'
  simp [ANode.callInternal, hfa, hf', hr]

/-- Witness for C10: `boom` exists on `demoUnit` and raises `AttributeError`
internally; `call_internal` reports "the method boom does not exist". -/
theorem c10_method_attributeerror_witness :
    demoNode.callInternal "u1" "boom" [] = .error (.attributeError
      (errorMessage "n1" ++ "the method " ++ "boom" ++ " does not exist.")) :=
  c10_method_attributeerror_reported_as_missing demoNode "u1" "boom" [] 0
    (fun _ => .error (.attributeError "inner boom")) "inner boom" rfl (by decide) rfl rfl

/-- **C8**: For every Node instance, both shallow copy and deep copy always
raise a descriptive error whose message includes the Node's id, and never
succeed; no copy operation produces a duplicate Node. -/
theorem c8_node_copy_always_raises :
    ∀ (n : ANode),
      (∃ msg, nodeCopy n = .error (.attributeError msg) ∧
        ∃ a b, msg = a ++ n.id ++ b) ∧
      (∃ msg, nodeDeepcopy n = .error (.attributeError msg) ∧
        ∃ a b, msg = a ++ n.id ++ b) ∧
      (∀ m, nodeCopy n ≠ .ok m) ∧
      (∀ m, nodeDeepcopy n ≠ .ok m) := by
  intro n
  refine ⟨⟨_, rfl, "module : superflexPy, Node : ",
      "," ++ " Error message : " ++ "A Node cannot be copied",
      by simp [errorMessage, String.append_assoc]⟩,
    ⟨_, rfl, "module : superflexPy, Node : ",
      "," ++ " Error message : " ++ "A Node cannot be copied",
      by simp [errorMessage, String.append_assoc]⟩,
    fun m h => by simp [nodeCopy] at h,
    fun m h => by simp [nodeDeepcopy] at h⟩

/-- Witness for C8: instantiation at a concrete Node. -/
theorem c8_node_copy_always_raises_witness :
    (∃ msg, nodeCopy ⟨"N1", []⟩ = .error (.attributeError msg) ∧
      ∃ a b, msg = a ++ "N1" ++ b) ∧
    (∃ msg, nodeDeepcopy ⟨"N1", []⟩ = .error (.attributeError msg) ∧
      ∃ a b, msg = a ++ "N1" ++ b) ∧
    (∀ m, nodeCopy ⟨"N1", []⟩ ≠ .ok m) ∧
    (∀ m, nodeDeepcopy ⟨"N1", []⟩ ≠ .ok m) :=
  c8_node_copy_always_raises ⟨"N1", []⟩

end SuperflexPy
